import Mathlib

/-!
Verification of the concurrent enrichment-and-persistence pipeline in
`scraper-service/execution/gmaps_lead_pipeline.py` (with its collaborators
`scrape_google_maps.py` and `extract_website_contacts.py`), against the
repository's natural-language specification.

The Python code is shallowly embedded: dictionaries whose keys may hold
`None` become structures with `Option`-typed fields; Python truthiness,
`str()` rendering of `None`, and `dict.get` defaults are modelled by explicit
helper functions; the catch-all `try/except` blocks become total functions;
the thread pool's nondeterministic completion order becomes an explicit
reordering parameter.
-/

namespace GmapsPipeline

/-- Python truthiness of an optional string value: both `None` and the empty
string are falsy (`if lead.get('website'):` etc.). -/
def pyTruthy : Option String → Bool
  | none => false
  | some s => s ≠ ""

/-- Python `str()` / f-string rendering of a value that is either a string or
`None`: `str(None) = "None"`, `f"{None}" = "None"`. -/
def pyStr : Option String → String
  | none => "None"
  | some s => s

/-- Python's `in` operator on strings (`needle in hay`), as contiguous
substring containment on the character lists; the empty needle is contained
in everything, as in Python. -/
def subOfChars (needle : List Char) : List Char → Bool
  | [] => needle.isEmpty
  | c :: rest => needle.isPrefixOf (c :: rest) || subOfChars needle rest

/-- `pyIn needle hay` models Python's `needle in hay` for strings. -/
def pyIn (needle hay : String) : Bool :=
  subOfChars needle.data hay.data

/-- Helper for Python's `str.split`-style splitting: cut the character list
at every character satisfying `p`, keeping empty segments, exactly as both
`str.split(sep)` and `re.split('[...]', s)` do. -/
def splitPredAux (p : Char → Bool) : List Char → List Char → List (List Char)
  | [], acc => [acc.reverse]
  | c :: rest, acc =>
    if p c then acc.reverse :: splitPredAux p rest []
    else splitPredAux p rest (c :: acc)

/-- Python's `s.split(sep)` for a one-character separator (always returns at
least one segment; empty segments are kept). -/
def pySplitChar (s : String) (sep : Char) : List String :=
  (splitPredAux (fun c => c = sep) s.data []).map fun l => ⟨l⟩

/-- Python's `s.lower()` (ASCII case mapping, which covers every string the
source manipulates here). -/
def pyLower (s : String) : String := ⟨s.data.map Char.toLower⟩

/-- Python's `s.upper()` (ASCII case mapping). -/
def pyUpper (s : String) : String := ⟨s.data.map Char.toUpper⟩

/-- Python's `s.strip()`: remove whitespace from both ends. -/
def pyStrip (s : String) : String :=
  ⟨((s.data.dropWhile Char.isWhitespace).reverse.dropWhile
      Char.isWhitespace).reverse⟩

/-! ## MD5 (as used by `hashlib.md5(raw.encode()).hexdigest()`)

A direct implementation of RFC 1321 over byte lists, with 32-bit words
represented as `Nat` reduced modulo `2^32`. -/

/-- 2^32, the 32-bit word modulus. -/
def w32 : Nat := 4294967296

/-- Bitwise complement on a 32-bit word represented as `Nat`. -/
def not32 (x : Nat) : Nat := Nat.xor x (w32 - 1)

/-- Left rotation of a 32-bit word. -/
def rotl32 (x n : Nat) : Nat :=
  ((x <<< n) % w32) ||| (x >>> (32 - n))

/-- The per-round shift amounts of MD5. -/
def md5S : List Nat :=
  [7, 12, 17, 22, 7, 12, 17, 22, 7, 12, 17, 22, 7, 12, 17, 22,
   5, 9, 14, 20, 5, 9, 14, 20, 5, 9, 14, 20, 5, 9, 14, 20,
   4, 11, 16, 23, 4, 11, 16, 23, 4, 11, 16, 23, 4, 11, 16, 23,
   6, 10, 15, 21, 6, 10, 15, 21, 6, 10, 15, 21, 6, 10, 15, 21]

/-- The sine-derived additive constants of MD5. -/
def md5K : List Nat :=
  [0xd76aa478, 0xe8c7b756, 0x242070db, 0xc1bdceee,
   0xf57c0faf, 0x4787c62a, 0xa8304613, 0xfd469501,
   0x698098d8, 0x8b44f7af, 0xffff5bb1, 0x895cd7be,
   0x6b901122, 0xfd987193, 0xa679438e, 0x49b40821,
   0xf61e2562, 0xc040b340, 0x265e5a51, 0xe9b6c7aa,
   0xd62f105d, 0x02441453, 0xd8a1e681, 0xe7d3fbc8,
   0x21e1cde6, 0xc33707d6, 0xf4d50d87, 0x455a14ed,
   0xa9e3e905, 0xfcefa3f8, 0x676f02d9, 0x8d2a4c8a,
   0xfffa3942, 0x8771f681, 0x6d9d6122, 0xfde5380c,
   0xa4beea44, 0x4bdecfa9, 0xf6bb4b60, 0xbebfbc70,
   0x289b7ec6, 0xeaa127fa, 0xd4ef3085, 0x04881d05,
   0xd9d4d039, 0xe6db99e5, 0x1fa27cf8, 0xc4ac5665,
   0xf4292244, 0x432aff97, 0xab9423a7, 0xfc93a039,
   0x655b59c3, 0x8f0ccc92, 0xffeff47d, 0x85845dd1,
   0x6fa87e4f, 0xfe2ce6e0, 0xa3014314, 0x4e0811a1,
   0xf7537e82, 0xbd3af235, 0x2ad7d2bb, 0xeb86d391]

/-- Message-index schedule: which 32-bit word of the chunk round `i` uses. -/
def md5G (i : Nat) : Nat :=
  if i < 16 then i
  else if i < 32 then (5 * i + 1) % 16
  else if i < 48 then (3 * i + 5) % 16
  else (7 * i) % 16

/-- The nonlinear mixing function of round `i`. -/
def md5F (i b c d : Nat) : Nat :=
  if i < 16 then (b &&& c) ||| (not32 b &&& d)
  else if i < 32 then (d &&& b) ||| (not32 d &&& c)
  else if i < 48 then Nat.xor (Nat.xor b c) d
  else Nat.xor c ((b ||| not32 d) % w32)

/-- One of the 64 MD5 rounds, acting on the state `(a, b, c, d)` with the
16-word message chunk `m`. -/
def md5Round (m : List Nat) (st : Nat × Nat × Nat × Nat) (i : Nat) :
    Nat × Nat × Nat × Nat :=
  let a := st.1
  let b := st.2.1
  let c := st.2.2.1
  let d := st.2.2.2
  let f := (md5F i b c d + a + md5K.getD i 0 + m.getD (md5G i) 0) % w32
  (d, (b + rotl32 f (md5S.getD i 0)) % w32, b, c)

/-- Decode 64 bytes into 16 little-endian 32-bit words. -/
def md5Words (chunk : List Nat) : List Nat :=
  (List.range 16).map fun j =>
    chunk.getD (4 * j) 0 + 256 * chunk.getD (4 * j + 1) 0 +
      65536 * chunk.getD (4 * j + 2) 0 + 16777216 * chunk.getD (4 * j + 3) 0

/-- Process one 64-byte chunk, updating the running digest state. -/
def md5Chunk (st : Nat × Nat × Nat × Nat) (chunk : List Nat) :
    Nat × Nat × Nat × Nat :=
  let r := (List.range 64).foldl (md5Round (md5Words chunk)) st
  ((st.1 + r.1) % w32, (st.2.1 + r.2.1) % w32,
   (st.2.2.1 + r.2.2.1) % w32, (st.2.2.2 + r.2.2.2) % w32)

/-- Split a byte list into 64-byte chunks. -/
def chunks64 (l : List Nat) : List (List Nat) :=
  if hl : l = [] then []
  else l.take 64 :: chunks64 (l.drop 64)
termination_by l.length
decreasing_by
  simp only [List.length_drop]
  have hl2 : l.length ≠ 0 := fun hn => hl (List.length_eq_zero.mp hn)
  omega

/-- MD5 padding: append `0x80`, zero bytes up to 56 mod 64, then the 64-bit
little-endian bit length. -/
def md5Pad (msg : List Nat) : List Nat :=
  let len := msg.length
  let zeros := (119 - len % 64) % 64
  let bitLen := (8 * len) % (2 ^ 64)
  msg ++ [0x80] ++ List.replicate zeros 0 ++
    (List.range 8).map (fun i => (bitLen >>> (8 * i)) % 256)

/-- Render one byte as two lowercase hex digits. -/
def byteHex (b : Nat) : List Char :=
  let digit := fun n => if n < 10 then Char.ofNat (48 + n) else Char.ofNat (87 + n)
  [digit (b / 16 % 16), digit (b % 16)]

/-- Serialize a 32-bit word as four little-endian hex-rendered bytes. -/
def wordHex (x : Nat) : List Char :=
  byteHex (x % 256) ++ byteHex (x / 256 % 256) ++
    byteHex (x / 65536 % 256) ++ byteHex (x / 16777216 % 256)

/-- MD5 digest of a byte list, rendered as the usual 32-character lowercase
hex string. -/
def md5HexBytes (msg : List Nat) : String :=
  let st := (chunks64 (md5Pad msg)).foldl md5Chunk
    (0x67452301, 0xefcdab89, 0x98badcfe, 0x10325476)
  ⟨wordHex st.1 ++ wordHex st.2.1 ++ wordHex st.2.2.1 ++ wordHex st.2.2.2⟩

/-- UTF-8 encoding of a code point, as byte values. -/
def utf8Enc (c : Nat) : List Nat :=
  if c < 0x80 then [c]
  else if c < 0x800 then [0xc0 + c / 64, 0x80 + c % 64]
  else if c < 0x10000 then
    [0xe0 + c / 4096, 0x80 + c / 64 % 64, 0x80 + c % 64]
  else
    [0xf0 + c / 262144, 0x80 + c / 4096 % 64, 0x80 + c / 64 % 64, 0x80 + c % 64]

/-- UTF-8 bytes of a string (`raw.encode()` in Python). -/
def strBytes (s : String) : List Nat :=
  (s.data.map (fun c => utf8Enc c.toNat)).flatten

/-- `hashlib.md5(s.encode()).hexdigest()`. -/
def md5Hex (s : String) : String :=
  md5HexBytes (strBytes s)

/-- `get_lead_id(name, address)`: MD5 hex digest of `f"{name}|{address}"`.
The arguments are the raw dictionary values, which may be `None`; the
f-string renders `None` as the literal string `"None"`. -/
def get_lead_id (name address : Option String) : String :=
  md5Hex (pyStr name ++ "|" ++ pyStr address)

/-! ## Name inference (`infer_name_from_email`) -/

/-- `GENERIC_EMAIL_PREFIXES` from the source.  Note that it contains
`"hello"`, which the spec's enumeration of the set omits. -/
def GENERIC_EMAIL_PREFIXES : List String :=
  ["info", "contact", "hello", "admin", "sales", "support", "help",
   "office", "team", "billing", "marketing", "service", "general",
   "enquiries", "enquiry", "mail", "email", "web", "noreply", "no-reply"]

/-- `infer_name_from_email` as the source actually behaves.  The body guards
the empty string, lower-cases the text before `@`, and rejects generic
prefixes; the next line is `re.split(r'[._-]', local_part)`, but the module
`gmaps_lead_pipeline.py` never imports `re`, so that line raises `NameError`,
the surrounding `except Exception` catches it, and the function returns
`None`.  Hence every non-generic local part also yields `None`. -/
def infer_name_from_email (email : String) : Option String :=
  if email = "" then none
  else
    let local_part := pyLower ((pySplitChar email '@').headD "")
    if GENERIC_EMAIL_PREFIXES.contains local_part then none
    else
      none

/-- The spec's generic-prefix set (§4.2), which omits `"hello"`. -/
def specGenericPrefixes : List String :=
  ["info", "contact", "admin", "sales", "support", "help",
   "office", "team", "billing", "marketing", "service", "general",
   "enquiries", "enquiry", "mail", "email", "web", "noreply", "no-reply"]

/-- Title-casing of one alphabetic segment: first character upper-cased, the
rest lower-cased (ASCII, as exercised by the spec's examples). -/
def titleCase (s : String) : String :=
  match s.data with
  | [] => ""
  | c :: rest => ⟨c.toUpper :: rest.map Char.toLower⟩

/-- Modelled from the spec: the §4.2 name-inference algorithm that
`infer_name_from_email` is documented (docstring and spec alike) to
implement, which the source never reaches because of the missing `re`
import.  Lower-case the local part; return none for a generic prefix; split
on `.`, `_`, `-`; keep alphabetic segments of length > 1; none if none
remain; else title-case each and join with single spaces; malformed input
(missing `@`, empty string) returns none. -/
def specInferName (email : String) : Option String :=
  if email = "" ∨ ¬ email.data.contains '@' then none
  else
    let local_part := pyLower ((pySplitChar email '@').headD "")
    if specGenericPrefixes.contains local_part then none
    else
      let parts := (splitPredAux (fun c => c = '.' || c = '_' || c = '-')
        local_part.data []).map fun l => (⟨l⟩ : String)
      let valid := parts.filter fun p => p.data.all Char.isAlpha && p.length > 1
      if valid.isEmpty then none
      else some (String.intercalate " " (valid.map titleCase))

/-! ## Data model

Python dictionaries are embedded as structures with `Option`-typed fields;
`none` stands for a key that is absent or holds `None`.  Every consumer in
the source reads these dictionaries through `dict.get` with an empty default
(or `csv.DictWriter` with empty `restval`), so the two cases are
indistinguishable downstream. -/

/-- A raw lead as produced by `scrape_google_maps` (every key is always set,
possibly to `None`).  `rating`/`reviews` are numbers in the source but are
only copied verbatim into the enriched record, so they are modelled as
optional strings.  Fields not consumed by the pipeline are omitted. -/
structure RawLead where
  name : Option String
  address : Option String
  phone : Option String
  website : Option String
  rating : Option String
  reviews : Option String
  category : Option String
  city : Option String
  state : Option String
deriving DecidableEq

/-- The `owner_info` sub-record of the extraction payload (the `phone` and
`linkedin` keys are never read by the pipeline). -/
structure OwnerInfo where
  name : Option String
  title : Option String
  email : Option String
deriving DecidableEq

/-- The `social_media` sub-record of the extraction payload, restricted to
the platforms the pipeline lifts out. -/
structure SocialMedia where
  facebook : Option String
  linkedin : Option String
  instagram : Option String
deriving DecidableEq

/-- The extraction payload as consumed by `process_lead` via `dict.get`. -/
structure ExtractData where
  emails : Option (List String)
  social_media : Option SocialMedia
  facebook_pixel : Option Bool
  google_pixel : Option Bool
  executive_summary : Option String
  owner_info : Option OwnerInfo
deriving DecidableEq

/-- An `owner_info` dictionary with no entries (`data.get('owner_info') or {}`). -/
def emptyOwner : OwnerInfo := ⟨none, none, none⟩

/-- The enriched-lead record built by `process_lead`.  Enrichment fields are
`none` when the corresponding key is absent (no website, or the extraction
call raised) or holds `None`. -/
structure EnrichedLead where
  lead_id : String
  business_name : Option String
  category : Option String
  rating : Option String
  review_count : Option String
  address : Option String
  city : Option String
  state : Option String
  phone : Option String
  website : Option String
  search_query : String
  emails : Option String
  facebook : Option String
  linkedin : Option String
  instagram : Option String
  facebook_pixel : Option Bool
  google_pixel : Option Bool
  executive_summary : Option String
  owner_name : Option String
  owner_title : Option String
deriving DecidableEq

/-! ## Enrichment worker (`process_lead`) -/

/-- The record `process_lead` builds before (and without) any enrichment:
raw-lead fields plus the dedup key and the search query. -/
def baseEnriched (lead : RawLead) (query : String) : EnrichedLead where
  lead_id := get_lead_id lead.name lead.address
  business_name := lead.name
  category := lead.category
  rating := lead.rating
  review_count := lead.reviews
  address := lead.address
  city := lead.city
  state := lead.state
  phone := lead.phone
  website := lead.website
  search_query := query
  emails := none
  facebook := none
  linkedin := none
  instagram := none
  facebook_pixel := none
  google_pixel := none
  executive_summary := none
  owner_name := none
  owner_title := none

/-- The owner-name assignment of `process_lead`: set from the payload's
owner name, and when that is falsy overwrite it — with inference on the
owner's email when that email is truthy, otherwise with inference on the
first entry of the joined email string when that string is truthy, otherwise
leave it as it is. -/
def ownerNameWithFallback (owner : OwnerInfo) (emailsJoined : String) :
    Option String :=
  if pyTruthy owner.name then owner.name
  else if pyTruthy owner.email then
    infer_name_from_email (owner.email.getD "")
  else if pyTruthy (some emailsJoined) then
    infer_name_from_email (pyStrip ((pySplitChar emailsJoined ',').headD ""))
  else owner.name

/-- `process_lead(lead, query, ...)`.  The behaviour of the extraction
collaborator is passed explicitly: `.error ()` models `extract_contacts`
raising (any exception), `.ok data` a returned payload.  The `try/except`
around the enrichment block makes the function total: a raising collaborator
leaves the base record untouched. -/
def process_lead (lead : RawLead) (query : String)
    (extractResult : Except Unit ExtractData) : EnrichedLead :=
  let base := baseEnriched lead query
  if pyTruthy lead.website then
    match extractResult with
    | .error _ => base
    | .ok data =>
      let social := data.social_media.getD ⟨none, none, none⟩
      let owner := data.owner_info.getD emptyOwner
      let emailsJoined := String.intercalate ", " (data.emails.getD [])
      { base with
        emails := some emailsJoined
        facebook := social.facebook
        linkedin := social.linkedin
        instagram := social.instagram
        facebook_pixel := some (data.facebook_pixel.getD false)
        google_pixel := some (data.google_pixel.getD false)
        executive_summary := data.executive_summary
        owner_name := ownerNameWithFallback owner emailsJoined
        owner_title := owner.title }
  else base

/-- Holds when all enrichment fields of a record read as empty through the
`dict.get`/empty-default access every consumer in the source uses (string
fields empty, pixel flags false). -/
def enrichmentEmpty (e : EnrichedLead) : Prop :=
  e.emails.getD "" = "" ∧ e.facebook.getD "" = "" ∧ e.linkedin.getD "" = "" ∧
  e.instagram.getD "" = "" ∧ e.facebook_pixel.getD false = false ∧
  e.google_pixel.getD false = false ∧ e.executive_summary.getD "" = "" ∧
  e.owner_name.getD "" = "" ∧ e.owner_title.getD "" = ""

/-- Modelled from the spec: the §4.4 owner-name fallback chain exactly as
claimed — extraction owner name, then inference on the owner's email, then
inference on the first entry of the email list, each next step evaluated
whenever the previous yields an empty result, stopping at the first
non-empty one. -/
def owner_chain_spec (data : ExtractData) : Option String :=
  let owner := data.owner_info.getD emptyOwner
  if pyTruthy owner.name then owner.name
  else if pyTruthy (infer_name_from_email (owner.email.getD "")) then
    infer_name_from_email (owner.email.getD "")
  else if pyTruthy (infer_name_from_email ((data.emails.getD []).headD "")) then
    infer_name_from_email ((data.emails.getD []).headD "")
  else none

/-! ## Location filter and pre-enrichment deduplication -/

/-- Target-state parsing in `run_gmaps_pipeline`: when the location contains
a comma, take the last comma-separated segment, strip and upper-case it, and
accept it only if it then has exactly two characters. -/
def parse_target_state (location : String) : Option String :=
  if pyIn "," location then
    if (pyUpper (pyStrip ((pySplitChar location ',').getLastD ""))).length = 2 then
      some (pyUpper (pyStrip ((pySplitChar location ',').getLastD "")))
    else none
  else none

/-- The location check inside the filtering loop: `true` when the lead is
skipped (`continue`).  A lead is examined only if its state value is truthy,
differs from the target, and differs from the literal `"New York"` (the
source's extra "allow full name too" exemption); it is then dropped when the
target code is a substring of neither the upper-cased state nor the
upper-cased `str()` rendering of the address. -/
def locationDrop (target_state : String) (lead : RawLead) : Bool :=
  if pyTruthy lead.state && !(lead.state == some target_state) &&
      !(lead.state == some "New York") then
    let address_str := pyUpper (pyStr lead.address)
    let state_str := pyUpper (pyStr lead.state)
    !(pyIn target_state state_str) && !(pyIn target_state address_str)
  else false

/-- `true` when the state filter does not skip the lead. -/
def passesLocation (target_state : Option String) (lead : RawLead) : Bool :=
  match target_state with
  | some t => !(locationDrop t lead)
  | none => true

/-- The filtering loop of `run_gmaps_pipeline`: drop leads skipped by the
state filter, then drop leads whose dedup key is already known; survivors
keep their order and go to enrichment. -/
def unique_raw_leads (target_state : Option String) (existing_ids : List String)
    (raw_leads : List RawLead) : List RawLead :=
  raw_leads.filter fun lead =>
    passesLocation target_state lead &&
      !(existing_ids.contains (get_lead_id lead.name lead.address))

/-! ## Batch persistence sink (`save_batch`, `save_to_csv`, `save_to_json`)

Sink contents are modelled as the list of records appended (the concrete
row/cell rendering is a pure function of the record and does not matter to
any claim); the I/O outcome of each backend is passed in explicitly. -/

/-- Persistent contents of the three sinks plus the in-memory known-key set. -/
structure SinkState where
  existing_ids : List String
  sheetRows : List EnrichedLead
  csvRows : List EnrichedLead
  jsonRows : List EnrichedLead
deriving DecidableEq

/-- The write targets a flush can touch. -/
inductive SinkKind
  | sheet
  | csv
  | json
deriving DecidableEq

/-- `save_to_csv(leads)`: appends every lead unconditionally (no key check);
an I/O error is caught and logged, leaving the file unchanged; empty input
returns immediately. -/
def save_to_csv (fails : Bool) (st : SinkState) (leads : List EnrichedLead) :
    SinkState :=
  if leads.isEmpty then st
  else if fails then st
  else { st with csvRows := st.csvRows ++ leads }

/-- `save_to_json(leads)`: read-extend-rewrite of the aggregate file, with
every lead appended unconditionally (no key check; a corrupt existing file is
treated as empty); errors are caught and logged; empty input returns
immediately. -/
def save_to_json (fails : Bool) (st : SinkState) (leads : List EnrichedLead) :
    SinkState :=
  if leads.isEmpty then st
  else if fails then st
  else { st with jsonRows := st.jsonRows ++ leads }

/-- The output mode `save_batch` acts in, fixed once per run:
`force_json` first, then a configured-and-working spreadsheet, else CSV. -/
inductive OutputMode
  | json
  | sheet
  | csv
deriving DecidableEq

/-- The sheet-append preparation in `save_batch`: walk the batch, skip any
record whose key is in `existing_ids`, and add each queued record's key to
the set as it is queued, so a duplicate later in the same batch is also
skipped.  Returns the queued rows and the grown key set. -/
def sheetNewRows (existing : List String) :
    List EnrichedLead → List EnrichedLead × List String
  | [] => ([], existing)
  | l :: rest =>
    if existing.contains l.lead_id then sheetNewRows existing rest
    else
      let r := sheetNewRows (existing ++ [l.lead_id]) rest
      (l :: r.1, r.2)

/-- `save_batch(batch_leads)` from `run_gmaps_pipeline`.  Returns the new
sink state and the list of write attempts made, in order.  JSON and CSV
modes call their writer once and never fall back (the writers catch their
own errors).  Sheet mode grows the key set before `append_rows` runs, so a
failing append still leaves those keys recorded; its exception handler then
attempts exactly one fallback write of the whole batch — `save_to_csv`,
since `force_json` is necessarily false in that branch.  When every record
of the batch was already known nothing is appended and nothing can fail. -/
def save_batch (mode : OutputMode) (sheetFails csvFails jsonFails : Bool)
    (st : SinkState) (batch_leads : List EnrichedLead) :
    SinkState × List SinkKind :=
  if batch_leads.isEmpty then (st, [])
  else
    match mode with
    | .json => (save_to_json jsonFails st batch_leads, [.json])
    | .sheet =>
      let nr := sheetNewRows st.existing_ids batch_leads
      let st1 := { st with existing_ids := nr.2 }
      if nr.1.isEmpty then (st1, [])
      else if sheetFails then
        (save_to_csv csvFails st1 batch_leads, [.sheet, .csv])
      else
        ({ st1 with sheetRows := st1.sheetRows ++ nr.1 }, [.sheet])
    | .csv => (save_to_csv csvFails st batch_leads, [.csv])

/-! ## Pipeline orchestrator (`run_gmaps_pipeline`) -/

/-- Everything the orchestrator's run depends on: whether an Apify token is
available (argument or environment), the two search results, the per-lead
behaviour of the extraction collaborator, the key set loaded from the
selected sink (empty when unavailable), and the run configuration. -/
structure PipelineEnv where
  apify_token : Bool
  search1 : List RawLead
  search2 : List RawLead
  extract : RawLead → Except Unit ExtractData
  niche : String
  location : String
  limit : Nat
  increase_radius : Bool
  existing_ids : List String

/-- The state threaded through the `as_completed` loop: the running result
list, the batch buffer, the batches passed to `save_batch` so far (in
order), and the progress events attempted so far. -/
structure LoopState where
  enriched_leads : List EnrichedLead
  batch_buffer : List EnrichedLead
  batches : List (List EnrichedLead)
  events : List (String × Nat)

/-- The fixed batch-size threshold. -/
def BATCH_SIZE : Nat := 10

/-- Round-to-nearest integer with ties to even, of the rational `num / den`:
the mantissa-rounding step of IEEE-754 binary64 arithmetic. -/
def rne (num den : Nat) : Nat :=
  if 2 * (num % den) < den then num / den
  else if den < 2 * (num % den) then num / den + 1
  else if (num / den) % 2 = 0 then num / den else num / den + 1

/-- The smallest shift `s` with `den * 2^52 ≤ num * 2^s`, found by doubling
`num`; the fuel argument only bounds the search and `den + 53` doublings
always suffice (`normShift_spec`). -/
def normShiftAux (den : Nat) : Nat → Nat → Nat
  | 0, _ => 0
  | fuel + 1, num =>
    if den * 2 ^ 52 ≤ num then 0 else normShiftAux den fuel (2 * num) + 1

/-- The normalization shift of `num / den`: the smallest `s` placing
`num * 2^s / den` in the binary64 mantissa range `[2^52, 2^53)`. -/
def normShift (num den : Nat) : Nat :=
  normShiftAux den (den + 53) num

/-- Correct rounding of the positive rational `num / den` to an IEEE-754
binary64 value (faithful for magnitudes below `2^53` and above the
subnormal threshold, which covers every value this pipeline computes):
normalize into the 53-bit mantissa range, then round the mantissa to
nearest, ties to even.  The result is returned as a numerator/denominator
pair `(m, 2^s)` whose value is the rounded double. -/
def fround (num den : Nat) : Nat × Nat :=
  if num = 0 then (0, 1)
  else
    (rne (num * 2 ^ normShift num den) den, 2 ^ normShift num den)

/-- CPython's `int((c / t) * 100)` for naturals `c ≤ t`, `t > 0`: the true
division `c / t` is correctly rounded to a double, that double is multiplied
by the exactly representable `100.0` with another correct rounding, and
`int` truncates.  Both roundings and the truncation are carried out exactly
on numerator/denominator pairs.  (This agrees with CPython wherever the
program can reach it; the model rounds with an unbounded exponent, so it
ignores binary64 underflow, which a quotient of list lengths could only hit
for totals beyond `2^1022`.) -/
def pctFloat (c t : Nat) : Nat :=
  let r1 := fround c t
  let r2 := fround (100 * r1.1) r1.2
  r2.1 / r2.2

/-- Enrichment progress percentage: `int((count / total) * 100)` through
CPython's float arithmetic (`pctFloat`), and 100 when the total is zero. -/
def enrichPct (count total : Nat) : Nat :=
  if total = 0 then 100 else pctFloat count total

/-- One completed enrichment in the loop: append the result to the running
list and the batch buffer (the new counts are written as `… + 1`, which is
what appending one element makes them), report progress on every fifth
completion and on the final one, and flush the buffer through `save_batch`
when it reaches `BATCH_SIZE`. -/
def loopStep (total : Nat) (st : LoopState) (result : EnrichedLead) : LoopState where
  enriched_leads := st.enriched_leads ++ [result]
  batch_buffer :=
    if BATCH_SIZE ≤ st.batch_buffer.length + 1 then []
    else st.batch_buffer ++ [result]
  batches :=
    if BATCH_SIZE ≤ st.batch_buffer.length + 1 then
      st.batches ++ [st.batch_buffer ++ [result]]
    else st.batches
  events :=
    if (st.enriched_leads.length + 1) % 5 = 0 ∨
        st.enriched_leads.length + 1 = total then
      st.events ++ [("enriching", enrichPct (st.enriched_leads.length + 1) total)]
    else st.events

/-- One iteration of the `as_completed` loop: the worker's result for the
completed lead folded into the loop state. -/
def enrichStep (total : Nat) (query : String)
    (extract : RawLead → Except Unit ExtractData) :
    LoopState → RawLead → LoopState :=
  fun st lead => loopStep total st (process_lead lead query (extract lead))

/-- The whole enrichment loop over the completion-order list, including the
final flush of the remaining partial batch (invoked only when non-empty). -/
def enrichLoop (total : Nat) (query : String)
    (extract : RawLead → Except Unit ExtractData)
    (order : List RawLead) : LoopState :=
  let st := order.foldl (enrichStep total query extract)
    { enriched_leads := [], batch_buffer := [], batches := [], events := [] }
  if st.batch_buffer.isEmpty then st
  else { st with batches := st.batches ++ [st.batch_buffer], batch_buffer := [] }

/-- Merge of the radius-expansion results into the first search's results,
deduplicating by dedup key so no raw lead appears twice. -/
def mergeExpansion (raw1 raw2 : List RawLead) : List RawLead :=
  let seen := raw1.map fun l => get_lead_id l.name l.address
  (raw2.foldl
    (fun acc l =>
      let lid := get_lead_id l.name l.address
      if acc.2.contains lid then acc
      else (acc.1 ++ [l], acc.2 ++ [lid]))
    (raw1, seen)).1

/-- Whether the radius-expansion sub-step runs. -/
def expands (env : PipelineEnv) : Bool :=
  env.increase_radius && decide (env.search1.length < env.limit)

/-- The raw leads after optional expansion and truncation to the limit. -/
def scrapedLeads (env : PipelineEnv) : List RawLead :=
  (if expands env then mergeExpansion env.search1 env.search2
   else env.search1).take env.limit

/-- The leads surviving both the state filter and key deduplication. -/
def survivingLeads (env : PipelineEnv) : List RawLead :=
  unique_raw_leads (parse_target_state env.location) env.existing_ids
    (scrapedLeads env)

/-- The progress events of the scraping stage: 0% before the search, 50%
after it, 60% and 90% around the radius-expansion sub-step when it runs,
then the terminal 100%. -/
def scrapeEvents (env : PipelineEnv) : List (String × Nat) :=
  [("scraping", 0), ("scraping", 50)] ++
    (if expands env then [("scraping", 60), ("scraping", 90)] else []) ++
    [("scraping", 100)]

/-- Result of a run: the progress events attempted (in order) and either a
setup error or the final loop state. -/
structure RunResult where
  events : List (String × Nat)
  outcome : Except Unit LoopState

/-- `run_gmaps_pipeline`.  The thread pool's completion order is supplied as
`reorder`, applied to the submission-order list of surviving leads (in a real
run it is a permutation of it).  Progress events are modelled as
(stage, percentage) pairs; messages and the running lead count ride along in
the source but carry no claim-relevant structure.  The scraping stage's
initial event is emitted before the search call, whose missing-credential
check therefore sits behind it; the extraction credential is read only
inside `extract_contacts`, i.e. inside the per-lead `try/except` of
`process_lead`, so it is part of the `extract` behaviour and can never raise
out of the orchestrator. -/
def run_gmaps_pipeline (env : PipelineEnv)
    (reorder : List RawLead → List RawLead) : RunResult :=
  if !env.apify_token then
    { events := [("scraping", 0)], outcome := .error () }
  else
    let loopRes := enrichLoop (survivingLeads env).length
      (env.niche ++ " in " ++ env.location) env.extract
      (reorder (survivingLeads env))
    { events := scrapeEvents env ++ [("enriching", 0)] ++ loopRes.events
        ++ [("finalizing", 100)],
      outcome := .ok loopRes }

/-! ## Auxiliary claim-level predicates -/

/-- Every record handed to a completed worker ends up flushed exactly once,
in exactly one batch: the concatenation of all batches passed to
`save_batch`, in flush order, is exactly the result list. -/
def allFlushedExactlyOnce : Except Unit LoopState → Prop
  | .error _ => True
  | .ok st => st.batches.flatten = st.enriched_leads

/-- A completed run's result list has exactly `n` records. -/
def resultLengthIs (n : Nat) : Except Unit LoopState → Prop
  | .error _ => True
  | .ok st => st.enriched_leads.length = n

/-- The record carries exactly the raw lead's own data (plus the dedup key
and the search query). -/
def fromRawOnly (lead : RawLead) (q : String) (e : EnrichedLead) : Prop :=
  e.lead_id = get_lead_id lead.name lead.address ∧
  e.business_name = lead.name ∧ e.category = lead.category ∧
  e.rating = lead.rating ∧ e.review_count = lead.reviews ∧
  e.address = lead.address ∧ e.city = lead.city ∧ e.state = lead.state ∧
  e.phone = lead.phone ∧ e.website = lead.website ∧ e.search_query = q

/-- Position of a stage name in the fixed stage order (unknown names last). -/
def stageIdx : String → Nat
  | "scraping" => 0
  | "enriching" => 1
  | "finalizing" => 2
  | _ => 3

/-- The percentages reported for one stage, in emission order. -/
def stagePcts (stage : String) (tr : List (String × Nat)) : List Nat :=
  (tr.filter fun e => e.1 == stage).map fun e => e.2

/-- The stages of the trace appear in the fixed pipeline order. -/
def stagesInOrder (tr : List (String × Nat)) : Prop :=
  (tr.map fun e => stageIdx e.1).Pairwise (· ≤ ·)

/-- Percentages within the given stage never decrease. -/
def stageMonotone (stage : String) (tr : List (String × Nat)) : Prop :=
  (stagePcts stage tr).Pairwise (· ≤ ·)

/-- The last percentage reported for a stage, if any. -/
def stageTerminal (stage : String) (tr : List (String × Nat)) : Option Nat :=
  (stagePcts stage tr).getLast?

/-- The progress-protocol property exactly as the spec claims it for every
run: fixed stage order, non-decreasing percentages within each stage, and a
terminal 100% event for each stage. -/
def progressClaim (tr : List (String × Nat)) : Prop :=
  stagesInOrder tr ∧
  stageMonotone "scraping" tr ∧ stageMonotone "enriching" tr ∧
  stageMonotone "finalizing" tr ∧
  stageTerminal "scraping" tr = some 100 ∧
  stageTerminal "enriching" tr = some 100 ∧
  stageTerminal "finalizing" tr = some 100

/-- The enriching-stage events the loop emits while the completion count
runs from `k+1` to `k+n`, out of `total`. -/
def eventsSeg (total : Nat) : Nat → Nat → List (String × Nat)
  | _, 0 => []
  | k, n + 1 =>
    (if (k + 1) % 5 = 0 ∨ (k + 1) = total then
      [("enriching", enrichPct (k + 1) total)]
     else []) ++ eventsSeg total (k + 1) n

/-! ## Concrete sample data used by counterexamples and witnesses -/

/-- A lead whose state is the literal string `"New York"`. -/
def nyLead : RawLead :=
  ⟨some "Acme Plumbing", some "123 Main St, Albany", none, none, none, none,
   none, none, some "New York"⟩

/-- A lead whose state disagrees with a Texas target in every way. -/
def caLead : RawLead :=
  ⟨some "Lone Star", some "500 Elm St", none, none, none, none,
   none, none, some "CA"⟩

/-- A lead with a website, so enrichment runs. -/
def webLead : RawLead :=
  ⟨some "Jane Co", some "1 A St", none, some "http://jane.example", none,
   none, none, none, none⟩

/-- An extraction payload carrying an owner name. -/
def janeData : ExtractData :=
  ⟨some ["jane.doe@acme.com"], none, none, none, none,
   some ⟨some "Jane Doe", some "Owner", none⟩⟩

/-- An always-raising extraction collaborator. -/
def constError : RawLead → Except Unit ExtractData := fun _ => .error ()

/-- A run with credentials present and an empty search result. -/
def emptyRunEnv : PipelineEnv :=
  ⟨true, [], [], constError, "plumbers", "Austin, TX", 5, false, []⟩

/-- A run with no Apify credential available. -/
def noTokenEnv : PipelineEnv :=
  ⟨false, [], [], constError, "plumbers", "Austin", 5, false, []⟩

/-- A run whose single raw lead survives filtering. -/
def oneLeadEnv : PipelineEnv :=
  ⟨true, [webLead], [], constError, "plumbers", "Austin", 5, false, []⟩

/-- A minimal enriched record with key `"k1"`. -/
def lead1e : EnrichedLead :=
  ⟨"k1", some "Acme", none, none, none, none, none, none, none, none,
   "q", none, none, none, none, none, none, none, none, none⟩

/-- Empty sinks and an empty known-key set. -/
def sink0 : SinkState := ⟨[], [], [], []⟩

/-- A sink state that already knows and holds `lead1e`. -/
def knownSink : SinkState := ⟨["k1"], [], [lead1e], []⟩

/-! ## Helper lemmas -/

/-- Because `gmaps_lead_pipeline.py` never imports `re`, `re.split` raises
`NameError` inside the `try` block and the catch-all handler returns `None`:
the function yields `None` on every input. -/
theorem infer_name_from_email_eq_none (email : String) :
    infer_name_from_email email = none := by
  unfold infer_name_from_email
  split
  · rfl
  · simp only []
    split <;> rfl

/-- A falsy optional string renders as the empty string. -/
theorem getD_empty_of_not_truthy (o : Option String) (h : pyTruthy o = false) :
    o.getD "" = "" := by
  cases o with
  | none => rfl
  | some s => simpa [pyTruthy] using h

/-! ## C10 -/

/-- C10: the dedup key is the digest of the unescaped `name + "|" + address`
concatenation, so shifting a `"|"`-joined chunk between the two fields leaves
the key unchanged: `get_lead_id (a ++ "|" ++ b) c = get_lead_id a (b ++ "|" ++ c)`
for all strings, independent of hash collisions. -/
theorem get_lead_id_pipe_assoc (a b c : String) :
    get_lead_id (some (a ++ "|" ++ b)) (some c)
      = get_lead_id (some a) (some (b ++ "|" ++ c)) := by
  unfold get_lead_id pyStr
  congr 1
  apply String.ext
  simp

/-! ## C4 -/

/-- C4: the claim's algorithm (and the function's own docstring) demand
`inferName "john.smith@co.com" = "John Smith"`, but the source function
returns `None` there — the `re` module is never imported, so `re.split`
raises `NameError` and the blanket handler returns `None`.  The spec-modelled
algorithm produces all five documented example values; the source agrees only
on the examples that never reach the splitting step. -/
theorem infer_name_missing_import_divergence :
    infer_name_from_email "john.smith@co.com" = none ∧
    infer_name_from_email "jsmith@co.com" = none ∧
    infer_name_from_email "info@co.com" = none ∧
    infer_name_from_email "" = none ∧
    specInferName "john.smith@co.com" = some "John Smith" ∧
    specInferName "info@co.com" = none ∧
    specInferName "jsmith@co.com" = some "Jsmith" ∧
    specInferName "j@co.com" = none ∧
    specInferName "" = none := by
  decide

/-! ## C3 -/

/-- C3 counterexample: with the search credential missing the orchestrator
does raise, but only after the scraping stage's initial progress event
(`scraping`, 0%) has already been emitted — not before any stage begins. -/
theorem raise_after_first_progress_event :
    (run_gmaps_pipeline noTokenEnv id).outcome = .error () ∧
    (run_gmaps_pipeline noTokenEnv id).events = [("scraping", 0)] :=
  ⟨rfl, rfl⟩

/-- C3 amended: the orchestrator raises exactly when the search credential
is missing, and when it raises it has emitted exactly one progress event —
the scraping stage's initial 0% event — and nothing further has run. -/
theorem raises_only_on_missing_search_credential (env : PipelineEnv)
    (reorder : List RawLead → List RawLead) :
    ((run_gmaps_pipeline env reorder).outcome = .error () ↔
      env.apify_token = false) ∧
    (env.apify_token = false →
      (run_gmaps_pipeline env reorder).events = [("scraping", 0)]) := by
  cases htok : env.apify_token <;> simp [run_gmaps_pipeline, htok]

/-- C3 amended, witnessed at the concrete credential-free run. -/
theorem raises_only_on_missing_search_credential_witness :
    (run_gmaps_pipeline noTokenEnv id).events = [("scraping", 0)] :=
  (raises_only_on_missing_search_credential noTokenEnv id).2 rfl

/-! ## C5 -/

/-- C5 counterexample: with target state `TX`, a lead whose state field is
the literal `"New York"` satisfies every condition the claim says forces a
drop (non-empty state, differing from the target, target a substring of
neither state nor address), yet the filter keeps it: the source exempts the
literal state string `"New York"`. -/
theorem new_york_exemption_counterexample :
    parse_target_state "Austin, TX" = some "TX" ∧
    nyLead.state.getD "" ≠ "" ∧
    nyLead.state ≠ some "TX" ∧
    pyIn "TX" (pyUpper (pyStr nyLead.state)) = false ∧
    pyIn "TX" (pyUpper (pyStr nyLead.address)) = false ∧
    locationDrop "TX" nyLead = false := by
  decide

/-- C5 amended: a target state is parsed exactly when the location's last
comma-separated segment is two characters after stripping and upper-casing;
given a target, a lead is dropped iff its state value is non-empty, differs
from the target, differs from the literal `"New York"` (the source's extra
exemption), and the target is a substring of neither the upper-cased state
nor the upper-cased `str()` rendering of the address. -/
theorem state_filter_behaviour (location t : String) (lead : RawLead) :
    (parse_target_state location = some t →
      pyIn "," location = true ∧
      t = pyUpper (pyStrip ((pySplitChar location ',').getLastD "")) ∧
      t.length = 2) ∧
    (locationDrop t lead = true ↔
      lead.state.getD "" ≠ "" ∧ lead.state ≠ some t ∧
      lead.state ≠ some "New York" ∧
      pyIn t (pyUpper (pyStr lead.state)) = false ∧
      pyIn t (pyUpper (pyStr lead.address)) = false) := by
  constructor
  · intro h
    unfold parse_target_state at h
    split at h
    · next hc =>
      split at h
      · next hlen =>
        refine ⟨hc, (Option.some.inj h).symm, ?_⟩
        rw [← Option.some.inj h]; exact hlen
      · exact absurd h (by simp)
    · exact absurd h (by simp)
  · unfold locationDrop
    cases hs : lead.state with
    | none => simp [pyTruthy]
    | some s =>
      by_cases hse : s = ""
      · subst hse; simp [pyTruthy]
      · simp [pyTruthy, hse, and_assoc]

/-- C5 amended, witnessed: the target is parsed out of `"Austin, TX"` and a
California lead with a Texas target is dropped. -/
theorem state_filter_behaviour_witness :
    (pyIn "," "Austin, TX" = true ∧
      "TX" = pyUpper (pyStrip ((pySplitChar "Austin, TX" ',').getLastD "")) ∧
      ("TX" : String).length = 2) ∧
    locationDrop "TX" caLead = true :=
  ⟨(state_filter_behaviour "Austin, TX" "TX" caLead).1 (by decide),
   (state_filter_behaviour "Austin, TX" "TX" caLead).2.mpr (by decide)⟩

/-! ## C6 -/

/-- C6: the enriched record's owner name (as every consumer reads it, i.e.
rendered with an empty default) equals the spec's three-step fallback chain
evaluated on the extraction payload — extraction owner name, then inference
on the owner's email, then inference on the first listed email, stopping at
the first non-empty result.  The source gates steps two and three on the
presence of the owner's email rather than on the emptiness of the previous
step's result, but the two formulations agree on every input because the
inference function never returns a name (missing `re` import). -/
theorem owner_name_fallback_chain (lead : RawLead) (q : String)
    (d : ExtractData) (hw : pyTruthy lead.website = true) :
    (process_lead lead q (.ok d)).owner_name.getD ""
      = (owner_chain_spec d).getD "" := by
  have hcode : (process_lead lead q (.ok d)).owner_name
      = ownerNameWithFallback (d.owner_info.getD emptyOwner)
          (String.intercalate ", " (d.emails.getD [])) := by
    unfold process_lead
    rw [hw]
    rfl
  rw [hcode]
  unfold ownerNameWithFallback owner_chain_spec
  simp only [infer_name_from_email_eq_none]
  have hpn : (pyTruthy none : Bool) = false := rfl
  by_cases hn : pyTruthy (d.owner_info.getD emptyOwner).name = true
  · simp [hn]
  · have hn2 : pyTruthy (d.owner_info.getD emptyOwner).name = false := by
      cases hbb : pyTruthy (d.owner_info.getD emptyOwner).name
      · rfl
      · exact absurd hbb hn
    simp only [hn2, Bool.false_eq_true, if_false, hpn]
    split
    · rfl
    · split
      · rfl
      · exact getD_empty_of_not_truthy _ hn2

/-- C6 witnessed at a lead with a website and a payload carrying an owner
name. -/
theorem owner_name_fallback_chain_witness :
    (process_lead webLead "plumbers in Austin" (.ok janeData)).owner_name.getD ""
      = (owner_chain_spec janeData).getD "" :=
  owner_name_fallback_chain webLead "plumbers in Austin" janeData (by decide)

/-! ## C7 -/

/-- C7 counterexample: in aggregate-JSON mode a failing primary write makes
no fallback attempt at all — the only attempted write is the failed primary,
and the batch is not persisted anywhere. -/
theorem json_flush_no_fallback :
    (save_batch .json false false true sink0 [lead1e]).2 = [SinkKind.json] ∧
    (save_batch .json false false true sink0 [lead1e]).1.jsonRows = [] := by
  decide

/-- C7 amended: only the spreadsheet mode attempts a fallback — exactly one,
to the CSV sink, with the whole batch — when its primary append fails; in
CSV and JSON modes a failed primary write is logged and dropped with no
fallback attempt; no mode raises (the flush is a total function), so
remaining enrichment continues in every case. -/
theorem flush_fallback_behaviour (st : SinkState) (batch : List EnrichedLead)
    (cf jf : Bool) (hb : batch ≠ []) :
    (save_batch .json false cf jf st batch).2 = [SinkKind.json] ∧
    (save_batch .csv false cf jf st batch).2 = [SinkKind.csv] ∧
    ((sheetNewRows st.existing_ids batch).1 ≠ [] →
      (save_batch .sheet true cf jf st batch).2
        = [SinkKind.sheet, SinkKind.csv]) ∧
    ((sheetNewRows st.existing_ids batch).1 = [] →
      (save_batch .sheet true cf jf st batch).2 = []) := by
  have hbe : batch.isEmpty = false := by
    cases batch
    · exact absurd rfl hb
    · rfl
  unfold save_batch
  simp only [hbe, Bool.false_eq_true, if_false]
  refine ⟨trivial, trivial, ?_, ?_⟩
  · intro hnr
    have hne : (sheetNewRows st.existing_ids batch).1.isEmpty = false := by
      cases hh : (sheetNewRows st.existing_ids batch).1
      · exact absurd hh hnr
      · rfl
    simp [hne]
  · intro hnr
    have hne : (sheetNewRows st.existing_ids batch).1.isEmpty = true := by
      rw [hnr]; rfl
    simp [hne]

/-- C7 amended, witnessed on a one-record batch in each mode. -/
theorem flush_fallback_behaviour_witness :
    (save_batch .json false false false sink0 [lead1e]).2 = [SinkKind.json] ∧
    (save_batch .csv false false false sink0 [lead1e]).2 = [SinkKind.csv] ∧
    (save_batch .sheet true false false sink0 [lead1e]).2
      = [SinkKind.sheet, SinkKind.csv] := by
  obtain ⟨h1, h2, h3, _⟩ :=
    flush_fallback_behaviour sink0 [lead1e] false false (List.cons_ne_nil _ _)
  exact ⟨h1, h2, h3 (by decide)⟩

/-! ## C9 -/

/-- C9 counterexample: the flat-file CSV strategy performs no key check at
all — a lead whose key is already in the known-key set and already persisted
is appended again, leaving two persisted occurrences where the claim allows
exactly one. -/
theorem csv_strategy_not_idempotent :
    lead1e.lead_id ∈ knownSink.existing_ids ∧
    (save_batch .csv false false false knownSink [lead1e]).1.csvRows
      = [lead1e, lead1e] := by
  decide

/-- C9 amended: only the spreadsheet strategy is idempotent against the
in-memory known-key set — a lead whose key is in the set is skipped, and a
fresh lead's key is recorded as it is appended, so flushing the same lead
twice persists exactly one occurrence; the flat-file CSV and aggregate-JSON
strategies append unconditionally, regardless of the key set. -/
theorem sheet_dedup_idempotence (st : SinkState) (l : EnrichedLead)
    (cf jf : Bool) :
    (l.lead_id ∈ st.existing_ids →
      (save_batch .sheet false cf jf st [l]).1.sheetRows = st.sheetRows) ∧
    (l.lead_id ∉ st.existing_ids →
      (save_batch .sheet false cf jf
          (save_batch .sheet false cf jf st [l]).1 [l]).1.sheetRows
        = st.sheetRows ++ [l]) ∧
    (save_batch .csv false false jf st [l]).1.csvRows = st.csvRows ++ [l] ∧
    (save_batch .json false cf false st [l]).1.jsonRows
      = st.jsonRows ++ [l] := by
  refine ⟨?_, ?_, ?_, ?_⟩
  · intro hmem
    simp [save_batch, sheetNewRows, hmem]
  · intro hmem
    simp [save_batch, sheetNewRows, hmem]
  · simp [save_batch, save_to_csv]
  · simp [save_batch, save_to_json]

/-- C9 amended, witnessed: re-offering a known lead to the sheet strategy
persists nothing, and flushing the same fresh lead twice persists exactly
one occurrence. -/
theorem sheet_dedup_idempotence_witness :
    ((save_batch .sheet false false false knownSink [lead1e]).1.sheetRows
       = knownSink.sheetRows) ∧
    ((save_batch .sheet false false false
        (save_batch .sheet false false false sink0 [lead1e]).1 [lead1e]).1.sheetRows
       = sink0.sheetRows ++ [lead1e]) :=
  ⟨(sheet_dedup_idempotence knownSink lead1e false false).1 (by decide),
   (sheet_dedup_idempotence sink0 lead1e false false).2.1 (by decide)⟩

/-! ## Loop invariants -/

/-- A step appends its result to the running list. -/
theorem loopStep_enriched (total : Nat) (st : LoopState) (r : EnrichedLead) :
    (loopStep total st r).enriched_leads = st.enriched_leads ++ [r] := rfl

/-- Flushed-plus-buffered records grow by exactly the step's result. -/
theorem loopStep_flatten (total : Nat) (st : LoopState) (r : EnrichedLead) :
    (loopStep total st r).batches.flatten ++ (loopStep total st r).batch_buffer
      = st.batches.flatten ++ st.batch_buffer ++ [r] := by
  unfold loopStep
  by_cases hsz : BATCH_SIZE ≤ st.batch_buffer.length + 1 <;>
    simp [hsz, List.append_assoc]

/-- The events a step adds, in terms of the completion count. -/
theorem loopStep_events (total : Nat) (st : LoopState) (r : EnrichedLead) :
    (loopStep total st r).events = st.events ++
      (if (st.enriched_leads.length + 1) % 5 = 0 ∨
          st.enriched_leads.length + 1 = total then
        [("enriching", enrichPct (st.enriched_leads.length + 1) total)]
       else []) := by
  by_cases hc : (st.enriched_leads.length + 1) % 5 = 0 ∨
      st.enriched_leads.length + 1 = total <;>
    simp [loopStep, hc]

/-- The three loop invariants, over a fold from any starting state: the
running list collects every worker result in completion order; the flushed
batches plus the live buffer hold exactly the same records; and the emitted
events are the segment determined by the completion counts. -/
theorem foldl_enrichStep_spec (total : Nat) (q : String)
    (ext : RawLead → Except Unit ExtractData) :
    ∀ (order : List RawLead) (st : LoopState),
      ((order.foldl (enrichStep total q ext) st).enriched_leads
          = st.enriched_leads ++ order.map (fun l => process_lead l q (ext l))) ∧
      ((order.foldl (enrichStep total q ext) st).batches.flatten
            ++ (order.foldl (enrichStep total q ext) st).batch_buffer
          = st.batches.flatten ++ st.batch_buffer
            ++ order.map (fun l => process_lead l q (ext l))) ∧
      ((order.foldl (enrichStep total q ext) st).events
          = st.events ++ eventsSeg total st.enriched_leads.length order.length) := by
  intro order
  induction order with
  | nil => intro st; simp [eventsSeg]
  | cons l rest ih =>
    intro st
    obtain ⟨ih1, ih2, ih3⟩ := ih (enrichStep total q ext st l)
    simp only [List.foldl_cons, List.map_cons, List.length_cons]
    refine ⟨?_, ?_, ?_⟩
    · rw [ih1, enrichStep, loopStep_enriched]
      simp [List.append_assoc]
    · rw [ih2, enrichStep, loopStep_flatten]
      simp [List.append_assoc]
    · rw [ih3, enrichStep, loopStep_events, loopStep_enriched]
      simp only [List.length_append, List.length_cons, List.length_nil]
      rw [eventsSeg]
      simp [List.append_assoc]

/-- The loop's outcome: results in completion order, every result in exactly
one flushed batch, and the events segment for counts `1..order.length`. -/
theorem enrichLoop_spec (total : Nat) (q : String)
    (ext : RawLead → Except Unit ExtractData) (order : List RawLead) :
    ((enrichLoop total q ext order).enriched_leads
        = order.map (fun l => process_lead l q (ext l))) ∧
    ((enrichLoop total q ext order).batches.flatten
        = order.map (fun l => process_lead l q (ext l))) ∧
    ((enrichLoop total q ext order).events
        = eventsSeg total 0 order.length) := by
  obtain ⟨h1, h2, h3⟩ := foldl_enrichStep_spec total q ext order
    { enriched_leads := [], batch_buffer := [], batches := [], events := [] }
  unfold enrichLoop
  by_cases hbuf : (order.foldl (enrichStep total q ext)
      { enriched_leads := [], batch_buffer := [], batches := [],
        events := [] }).batch_buffer.isEmpty
  · rw [if_pos hbuf]
    have hbe : (order.foldl (enrichStep total q ext)
        { enriched_leads := [], batch_buffer := [], batches := [],
          events := [] }).batch_buffer = [] := by
      simpa [List.isEmpty_iff] using hbuf
    rw [hbe, List.append_nil] at h2
    simp only [List.flatten_nil, List.nil_append] at h1 h2 h3
    exact ⟨h1, h2, h3⟩
  · rw [if_neg hbuf]
    simp only [List.flatten_nil, List.nil_append] at h1 h2 h3
    refine ⟨h1, ?_, h3⟩
    simp only [List.flatten_append, List.flatten_cons, List.flatten_nil,
      List.append_nil]
    exact h2

/-! ## C1 -/

/-- C1: in every run, the concatenation of all batches passed to
`save_batch` — including the final partial batch flushed after the loop —
is exactly the list of worker results, so every enriched lead is flushed
exactly once, as a member of exactly one batch: none is flushed twice and
none is dropped from batching. -/
theorem every_lead_flushed_exactly_once (env : PipelineEnv)
    (reorder : List RawLead → List RawLead) :
    allFlushedExactlyOnce (run_gmaps_pipeline env reorder).outcome := by
  unfold run_gmaps_pipeline
  by_cases htok : env.apify_token
  · simp only [htok, Bool.not_true, Bool.false_eq_true, if_false]
    obtain ⟨h1, h2, _⟩ := enrichLoop_spec (survivingLeads env).length
      (env.niche ++ " in " ++ env.location) env.extract
      (reorder (survivingLeads env))
    exact h2.trans h1.symm
  · have htok2 : env.apify_token = false := by
      cases hbb : env.apify_token
      · rfl
      · exact absurd hbb htok
    simp only [htok2, Bool.not_false, if_true]
    exact trivial

/-! ## C2 -/

/-- C2: the worker is total — for every raw lead and every behaviour of the
extraction collaborator, including a raising `extract_contacts`, it returns
an `EnrichedLead`; on extraction failure the record carries exactly the raw
lead's own fields with every enrichment field reading as empty (string
fields empty, pixel flags false); consequently a completed run with `N`
surviving leads returns exactly `N` records. -/
theorem worker_failure_yields_base_record (lead : RawLead) (q : String)
    (env : PipelineEnv) (reorder : List RawLead → List RawLead)
    (hperm : (reorder (survivingLeads env)).Perm (survivingLeads env)) :
    fromRawOnly lead q (process_lead lead q (.error ())) ∧
    enrichmentEmpty (process_lead lead q (.error ())) ∧
    resultLengthIs (survivingLeads env).length
      (run_gmaps_pipeline env reorder).outcome := by
  have hbase : process_lead lead q (.error ()) = baseEnriched lead q := by
    unfold process_lead
    exact ite_self _
  refine ⟨?_, ?_, ?_⟩
  · rw [hbase]
    exact ⟨rfl, rfl, rfl, rfl, rfl, rfl, rfl, rfl, rfl, rfl, rfl⟩
  · rw [hbase]
    exact ⟨rfl, rfl, rfl, rfl, rfl, rfl, rfl, rfl, rfl⟩
  · unfold run_gmaps_pipeline
    by_cases htok : env.apify_token
    · simp only [htok, Bool.not_true, Bool.false_eq_true, if_false]
      obtain ⟨h1, _, _⟩ := enrichLoop_spec (survivingLeads env).length
        (env.niche ++ " in " ++ env.location) env.extract
        (reorder (survivingLeads env))
      show (enrichLoop (survivingLeads env).length
        (env.niche ++ " in " ++ env.location) env.extract
        (reorder (survivingLeads env))).enriched_leads.length
          = (survivingLeads env).length
      rw [h1, List.length_map]
      exact hperm.length_eq
    · have htok2 : env.apify_token = false := by
        cases hbb : env.apify_token
        · rfl
        · exact absurd hbb htok
      simp only [htok2, Bool.not_false, if_true]
      exact trivial

/-- C2 witnessed at a run whose single website-free lead survives and whose
extraction collaborator always raises. -/
theorem worker_failure_yields_base_record_witness :
    fromRawOnly caLead "q" (process_lead caLead "q" (.error ())) ∧
    enrichmentEmpty (process_lead caLead "q" (.error ())) ∧
    resultLengthIs (survivingLeads oneLeadEnv).length
      (run_gmaps_pipeline oneLeadEnv id).outcome :=
  worker_failure_yields_base_record caLead "q" oneLeadEnv id (List.Perm.refl _)

/-! ## Progress-event lemmas -/

/-- Every loop event belongs to the enriching stage. -/
theorem eventsSeg_stage (total : Nat) :
    ∀ (n k : Nat), ∀ x ∈ eventsSeg total k n, x.1 = "enriching" := by
  intro n
  induction n with
  | zero => intro k x hx; simp [eventsSeg] at hx
  | succ m ih =>
    intro k x hx
    rw [eventsSeg, List.mem_append] at hx
    rcases hx with hx | hx
    · split at hx
      · rw [List.mem_singleton] at hx
        rw [hx]
      · simp at hx
    · exact ih (k + 1) x hx

/-- Rounding to nearest never falls below the floor. -/
theorem le_rne (num den : Nat) : num / den ≤ rne num den := by
  unfold rne
  split
  · exact le_refl _
  · split
    · exact Nat.le_succ _
    · split
      · exact le_refl _
      · exact Nat.le_succ _

/-- Rounding to nearest never exceeds the floor plus one. -/
theorem rne_le_succ (num den : Nat) : rne num den ≤ num / den + 1 := by
  unfold rne
  split
  · exact Nat.le_succ _
  · split
    · exact le_refl _
    · split
      · exact Nat.le_succ _
      · exact le_refl _

/-- Floor division is monotone with respect to the rational values. -/
theorem nat_div_le_div_cross {a b c d : Nat} (hb : 0 < b) (hd : 0 < d)
    (h : a * d ≤ c * b) : a / b ≤ c / d := by
  have e1 : a / b = a * d / (b * d) := by rw [Nat.mul_div_mul_right _ _ hd]
  have e2 : c / d = c * b / (d * b) := by rw [Nat.mul_div_mul_right _ _ hb]
  rw [e1, e2, Nat.mul_comm d b]
  exact Nat.div_le_div_right h

/-- Round-to-nearest with ties to even is monotone with respect to the
rational values, whatever the representations: the core monotonicity fact
of correctly rounded IEEE-754 arithmetic. -/
theorem rne_mono_rat {a b c d : Nat} (hb : 0 < b) (hd : 0 < d)
    (h : a * d ≤ c * b) : rne a b ≤ rne c d := by
  have hq : a / b ≤ c / d := nat_div_le_div_cross hb hd h
  rcases Nat.lt_or_ge (a / b) (c / d) with hlt | hge
  · calc rne a b ≤ a / b + 1 := rne_le_succ a b
      _ ≤ c / d := hlt
      _ ≤ rne c d := le_rne c d
  · have heq : a / b = c / d := le_antisymm hq hge
    have hfrac : (a % b) * d ≤ (c % d) * b := by
      have key : b * (a / b) * d + (a % b) * d
          ≤ d * (c / d) * b + (c % d) * b := by
        calc b * (a / b) * d + (a % b) * d
            = (b * (a / b) + a % b) * d := by ring
          _ = a * d := by rw [Nat.div_add_mod]
          _ ≤ c * b := h
          _ = (d * (c / d) + c % d) * b := by rw [Nat.div_add_mod]
          _ = d * (c / d) * b + (c % d) * b := by ring
      rw [heq] at key
      have hcomm : b * (c / d) * d = d * (c / d) * b := by ring
      rw [hcomm] at key
      exact Nat.le_of_add_le_add_left key
    by_contra hcon
    push_neg at hcon
    have hub := rne_le_succ a b
    have hlb := le_rne c d
    have h1 : rne a b = a / b + 1 := by omega
    have h2 : rne c d = c / d := by omega
    have hcm : d * b = b * d := Nat.mul_comm d b
    unfold rne at h1 h2
    split at h1
    · omega
    · next hge1 =>
      split at h1
      · -- left rounds up: b < 2 * (a % b)
        next hgt1 =>
        have c1 : b * d < 2 * ((a % b) * d) := by
          calc b * d < (2 * (a % b)) * d := (Nat.mul_lt_mul_right hd).mpr hgt1
            _ = 2 * ((a % b) * d) := by ring
        split at h2
        · -- right rounds down: 2 * (c % d) < d
          next hlt2 =>
          have c2 : 2 * ((c % d) * b) < d * b := by
            calc 2 * ((c % d) * b) = (2 * (c % d)) * b := by ring
              _ < d * b := (Nat.mul_lt_mul_right hb).mpr hlt2
          linarith [hfrac]
        · next hge2 =>
          split at h2
          · omega
          · next hgt2 =>
            have e2 : 2 * (c % d) = d := by omega
            have c2 : 2 * ((c % d) * b) = d * b := by
              calc 2 * ((c % d) * b) = (2 * (c % d)) * b := by ring
                _ = d * b := by rw [e2]
            split at h2
            · linarith [hfrac]
            · omega
      · next hgt1 =>
        -- left at a tie: 2 * (a % b) = b
        have e1 : 2 * (a % b) = b := by omega
        have c1 : 2 * ((a % b) * d) = b * d := by
          calc 2 * ((a % b) * d) = (2 * (a % b)) * d := by ring
            _ = b * d := by rw [e1]
        split at h1
        · omega
        · next hodd =>
          split at h2
          · -- right rounds down: 2 * (c % d) < d
            next hlt2 =>
            have c2 : 2 * ((c % d) * b) < d * b := by
              calc 2 * ((c % d) * b) = (2 * (c % d)) * b := by ring
                _ < d * b := (Nat.mul_lt_mul_right hb).mpr hlt2
            linarith [hfrac]
          · next hge2 =>
            split at h2
            · omega
            · next hgt2 =>
              split at h2
              · -- right tie with even quotient: parity clash through heq
                next heven =>
                omega
              · omega

/-- If the value is at least `B`, so is its rounding. -/
theorem rne_ge_mantissa {num den B : Nat} (hden : 0 < den)
    (h : den * B ≤ num) : B ≤ rne num den := by
  have hq : B ≤ num / den := (Nat.le_div_iff_mul_le hden).mpr
    (by rw [Nat.mul_comm]; exact h)
  exact le_trans hq (le_rne num den)

/-- If the value is below `B`, its rounding is at most `B`. -/
theorem rne_le_mantissa {num den B : Nat} (hden : 0 < den)
    (h : num < den * B) : rne num den ≤ B := by
  have hq : num / den < B := (Nat.div_lt_iff_lt_mul hden).mpr
    (by rw [Nat.mul_comm B den]; exact h)
  calc rne num den ≤ num / den + 1 := rne_le_succ num den
    _ ≤ B := hq

/-- The doubling search finds the smallest sufficient shift, whenever the
fuel itself is sufficient. -/
theorem normShiftAux_spec (den : Nat) :
    ∀ (fuel num : Nat), 0 < num → den * 2 ^ 52 ≤ num * 2 ^ fuel →
      den * 2 ^ 52 ≤ num * 2 ^ normShiftAux den fuel num ∧
      ∀ s, den * 2 ^ 52 ≤ num * 2 ^ s → normShiftAux den fuel num ≤ s := by
  intro fuel
  induction fuel with
  | zero =>
    intro num hnum hsuff
    rw [pow_zero, Nat.mul_one] at hsuff
    have haux0 : normShiftAux den 0 num = 0 := rfl
    constructor
    · rw [haux0, pow_zero, Nat.mul_one]
      exact hsuff
    · intro s _
      rw [haux0]
      exact Nat.zero_le s
  | succ f ih =>
    intro num hnum hsuff
    by_cases hle : den * 2 ^ 52 ≤ num
    · have haux0 : normShiftAux den (f + 1) num = 0 := by
        simp only [normShiftAux]
        rw [if_pos hle]
      constructor
      · rw [haux0, pow_zero, Nat.mul_one]
        exact hle
      · intro s _
        rw [haux0]
        exact Nat.zero_le s
    · have hrec := ih (2 * num) (by omega) (by
        calc den * 2 ^ 52 ≤ num * 2 ^ (f + 1) := hsuff
          _ = 2 * num * 2 ^ f := by ring)
      obtain ⟨h1, h2⟩ := hrec
      have haux : normShiftAux den (f + 1) num
          = normShiftAux den f (2 * num) + 1 := by
        simp only [normShiftAux]
        rw [if_neg hle]
      constructor
      · rw [haux]
        calc den * 2 ^ 52 ≤ 2 * num * 2 ^ normShiftAux den f (2 * num) := h1
          _ = num * 2 ^ (normShiftAux den f (2 * num) + 1) := by ring
      · intro s hs
        rw [haux]
        cases s with
        | zero =>
          rw [pow_zero, Nat.mul_one] at hs
          exact absurd hs hle
        | succ s2 =>
          have hs2 : den * 2 ^ 52 ≤ 2 * num * 2 ^ s2 := by
            calc den * 2 ^ 52 ≤ num * 2 ^ (s2 + 1) := hs
              _ = 2 * num * 2 ^ s2 := by ring
          have := h2 s2 hs2
          omega

/-- `normShift` satisfies its defining property and minimality: the fuel
`den + 53` always suffices. -/
theorem normShift_spec (num den : Nat) (hnum : 0 < num) :
    den * 2 ^ 52 ≤ num * 2 ^ normShift num den ∧
    ∀ s, den * 2 ^ 52 ≤ num * 2 ^ s → normShift num den ≤ s := by
  apply normShiftAux_spec den (den + 53) num hnum
  have h1 : den ≤ 2 ^ den := Nat.le_of_lt (Nat.lt_two_pow den)
  calc den * 2 ^ 52 ≤ 2 ^ den * 2 ^ 52 := Nat.mul_le_mul_right _ h1
    _ = 2 ^ (den + 52) := by rw [← pow_add]
    _ ≤ 2 ^ (den + 53) := Nat.pow_le_pow_right (by omega) (by omega)
    _ ≤ num * 2 ^ (den + 53) := Nat.le_mul_of_pos_left _ hnum

/-- A larger value needs at most as large a normalization shift. -/
theorem normShift_antitone {n1 d1 n2 d2 : Nat} (h1 : 0 < n1) (hd1 : 0 < d1)
    (h2 : 0 < n2) (h : n1 * d2 ≤ n2 * d1) :
    normShift n2 d2 ≤ normShift n1 d1 := by
  obtain ⟨ha, _⟩ := normShift_spec n1 d1 h1
  apply (normShift_spec n2 d2 h2).2
  have step : d1 * (d2 * 2 ^ 52) ≤ d1 * (n2 * 2 ^ normShift n1 d1) := by
    calc d1 * (d2 * 2 ^ 52) = d2 * (d1 * 2 ^ 52) := by ring
      _ ≤ d2 * (n1 * 2 ^ normShift n1 d1) := Nat.mul_le_mul_left _ ha
      _ = (n1 * d2) * 2 ^ normShift n1 d1 := by ring
      _ ≤ (n2 * d1) * 2 ^ normShift n1 d1 := Nat.mul_le_mul_right _ h
      _ = d1 * (n2 * 2 ^ normShift n1 d1) := by ring
  exact Nat.le_of_mul_le_mul_left step hd1

/-- Minimality keeps the normalized numerator below the top of the mantissa
range whenever a non-trivial shift was taken. -/
theorem normShift_upper {num den : Nat} (hnum : 0 < num)
    (hpos : 0 < normShift num den) :
    num * 2 ^ normShift num den < den * 2 ^ 53 := by
  by_contra hcon
  push_neg at hcon
  have hstep : den * 2 ^ 52 ≤ num * 2 ^ (normShift num den - 1) := by
    have hrw : num * 2 ^ normShift num den
        = 2 * (num * 2 ^ (normShift num den - 1)) := by
      have hk : normShift num den = (normShift num den - 1) + 1 := by omega
      calc num * 2 ^ normShift num den
          = num * 2 ^ ((normShift num den - 1) + 1) := by rw [← hk]
        _ = 2 * (num * 2 ^ (normShift num den - 1)) := by ring
    have h53 : den * 2 ^ 53 = 2 * (den * 2 ^ 52) := by ring
    rw [hrw, h53] at hcon
    exact Nat.le_of_mul_le_mul_left hcon (by omega)
  have := (normShift_spec num den hnum).2 _ hstep
  omega

/-- The denominator a rounding returns is positive. -/
theorem fround_den_pos (num den : Nat) : 0 < (fround num den).2 := by
  unfold fround
  split
  · exact Nat.one_pos
  · exact Nat.pos_pow_of_pos _ (by omega)

/-- Correct rounding is monotone with respect to the input values: the
composition law that makes the float percentage non-decreasing. -/
theorem fround_mono {n1 d1 n2 d2 : Nat} (hd1 : 0 < d1) (hd2 : 0 < d2)
    (h : n1 * d2 ≤ n2 * d1) :
    (fround n1 d1).1 * (fround n2 d2).2
      ≤ (fround n2 d2).1 * (fround n1 d1).2 := by
  by_cases hn1 : n1 = 0
  · subst hn1
    simp [fround]
  · have hn2 : n2 ≠ 0 := by
      intro h0
      subst h0
      rcases Nat.mul_eq_zero.mp (Nat.le_zero.mp (by simpa using h)) with h' | h'
      · exact hn1 h'
      · omega
    have hpos1 : 0 < n1 := Nat.pos_of_ne_zero hn1
    have hpos2 : 0 < n2 := Nat.pos_of_ne_zero hn2
    have hanti : normShift n2 d2 ≤ normShift n1 d1 :=
      normShift_antitone hpos1 hd1 hpos2 h
    unfold fround
    rw [if_neg hn1, if_neg hn2]
    rcases Nat.eq_or_lt_of_le hanti with heq | hlt
    · rw [heq]
      apply Nat.mul_le_mul_right
      apply rne_mono_rat hd1 hd2
      calc n1 * 2 ^ normShift n1 d1 * d2
          = (n1 * d2) * 2 ^ normShift n1 d1 := by ring
        _ ≤ (n2 * d1) * 2 ^ normShift n1 d1 := Nat.mul_le_mul_right _ h
        _ = n2 * 2 ^ normShift n1 d1 * d1 := by ring
    · have hm1 : rne (n1 * 2 ^ normShift n1 d1) d1 ≤ 2 ^ 53 :=
        rne_le_mantissa hd1 (normShift_upper hpos1 (by omega))
      have hm2 : 2 ^ 52 ≤ rne (n2 * 2 ^ normShift n2 d2) d2 :=
        rne_ge_mantissa hd2 (normShift_spec n2 d2 hpos2).1
      calc rne (n1 * 2 ^ normShift n1 d1) d1 * 2 ^ normShift n2 d2
          ≤ 2 ^ 53 * 2 ^ normShift n2 d2 := Nat.mul_le_mul_right _ hm1
        _ = 2 ^ 52 * 2 ^ (normShift n2 d2 + 1) := by ring
        _ ≤ rne (n2 * 2 ^ normShift n2 d2) d2 * 2 ^ (normShift n2 d2 + 1) :=
            Nat.mul_le_mul_right _ hm2
        _ ≤ rne (n2 * 2 ^ normShift n2 d2) d2 * 2 ^ normShift n1 d1 :=
            Nat.mul_le_mul_left _ (Nat.pow_le_pow_right (by omega) (by omega))

/-- The float percentage is monotone in the completion count: division,
multiplication by 100 and truncation are each monotone, and the two
intermediate roundings preserve order. -/
theorem pctFloat_mono {t a b : Nat} (ht : 0 < t) (hab : a ≤ b) :
    pctFloat a t ≤ pctFloat b t := by
  unfold pctFloat
  have s1 := fround_mono ht ht (Nat.mul_le_mul_right t hab)
  have s2 := fround_mono (fround_den_pos a t) (fround_den_pos b t)
    (show 100 * (fround a t).1 * (fround b t).2
        ≤ 100 * (fround b t).1 * (fround a t).2 from by
      calc 100 * (fround a t).1 * (fround b t).2
          = 100 * ((fround a t).1 * (fround b t).2) := by ring
        _ ≤ 100 * ((fround b t).1 * (fround a t).2) := Nat.mul_le_mul_left _ s1
        _ = 100 * (fround b t).1 * (fround a t).2 := by ring)
  exact nat_div_le_div_cross (fround_den_pos _ _) (fround_den_pos _ _) s2

/-- At full completion the float percentage is exactly 100: `t / t` rounds
to the exact double `1.0` and `1.0 * 100` to the exact double `100.0`. -/
theorem pctFloat_total {t : Nat} (ht : 0 < t) : pctFloat t t = 100 := by
  unfold pctFloat
  have hs : normShift t t = 52 := by
    obtain ⟨h1, h2⟩ := normShift_spec t t ht
    have hle : normShift t t ≤ 52 := h2 52 (le_refl _)
    have hge : 52 ≤ normShift t t := by
      have h3 : (2 : Nat) ^ 52 ≤ 2 ^ normShift t t :=
        Nat.le_of_mul_le_mul_left h1 ht
      exact (Nat.pow_le_pow_iff_right (by omega)).mp h3
    omega
  have hf1 : fround t t = (2 ^ 52, 2 ^ 52) := by
    unfold fround
    rw [if_neg (by omega), hs]
    have hq : t * 2 ^ 52 / t = 2 ^ 52 := Nat.mul_div_cancel_left _ ht
    have hr : t * 2 ^ 52 % t = 0 := Nat.mul_mod_right t _
    have hrne : rne (t * 2 ^ 52) t = 2 ^ 52 := by
      unfold rne
      rw [hq, hr]
      simp [ht]
    rw [hrne]
  rw [hf1]
  decide

/-- The reported percentage is monotone in the completion count. -/
theorem enrichPct_mono (total : Nat) {a b : Nat} (hab : a ≤ b) :
    enrichPct a total ≤ enrichPct b total := by
  unfold enrichPct
  split
  · exact le_refl _
  · next htz => exact pctFloat_mono (Nat.pos_of_ne_zero htz) hab

/-- At full completion the reported percentage is 100. -/
theorem enrichPct_total {t : Nat} (ht : 0 < t) : enrichPct t t = 100 := by
  unfold enrichPct
  rw [if_neg (by omega)]
  exact pctFloat_total ht

/-- Every loop event's percentage is bounded below by the percentage at the
count the segment starts from. -/
theorem eventsSeg_pct_lb (total : Nat) :
    ∀ (n k : Nat), ∀ x ∈ eventsSeg total k n, enrichPct k total ≤ x.2 := by
  intro n
  induction n with
  | zero => intro k x hx; simp [eventsSeg] at hx
  | succ m ih =>
    intro k x hx
    rw [eventsSeg, List.mem_append] at hx
    rcases hx with hx | hx
    · split at hx
      · rw [List.mem_singleton] at hx
        rw [hx]
        exact enrichPct_mono total (Nat.le_succ k)
      · simp at hx
    · exact le_trans (enrichPct_mono total (Nat.le_succ k)) (ih (k + 1) x hx)

/-- The loop's percentages never decrease. -/
theorem eventsSeg_pairwise (total : Nat) :
    ∀ (n k : Nat),
      ((eventsSeg total k n).map (fun e => e.2)).Pairwise (· ≤ ·) := by
  intro n
  induction n with
  | zero => intro k; simp [eventsSeg]
  | succ m ih =>
    intro k
    rw [eventsSeg, List.map_append]
    apply List.pairwise_append.mpr
    refine ⟨?_, ih (k + 1), ?_⟩
    · split <;> simp
    · intro a ha b hb
      rw [List.mem_map] at ha hb
      obtain ⟨x, hx, rfl⟩ := ha
      obtain ⟨y, hy, rfl⟩ := hb
      have hy2 := eventsSeg_pct_lb total m (k + 1) y hy
      split at hx
      · rw [List.mem_singleton] at hx
        rw [hx]
        exact hy2
      · simp at hx

/-- When the segment runs all the way to `total` completions, its last
reported percentage is 100. -/
theorem eventsSeg_last_pct (total : Nat) :
    ∀ (n k : Nat), 0 < n → k + n = total →
      ((eventsSeg total k n).map (fun e => e.2)).getLast? = some 100 := by
  intro n
  induction n with
  | zero => intro k h; omega
  | succ m ih =>
    intro k hpos hk
    rw [eventsSeg, List.map_append]
    rcases Nat.eq_zero_or_pos m with hm | hm
    · subst hm
      have hkt : k + 1 = total := by omega
      have htpos : 0 < total := by omega
      have h100 : enrichPct (k + 1) total = 100 := by
        rw [hkt]
        exact enrichPct_total htpos
      rw [if_pos (Or.inr hkt)]
      simp [eventsSeg, h100]
    · have h2 := ih (k + 1) hm (by omega)
      have hne : (eventsSeg total (k + 1) m).map (fun e => e.2) ≠ [] := by
        intro hh
        rw [hh] at h2
        simp at h2
      rw [List.getLast?_append_of_ne_nil _ hne]
      exact h2

/-- Stage filtering distributes over trace concatenation. -/
theorem stagePcts_append (s : String) (a b : List (String × Nat)) :
    stagePcts s (a ++ b) = stagePcts s a ++ stagePcts s b := by
  simp [stagePcts]

/-- The enriching-stage filter keeps every loop event. -/
theorem stagePcts_eventsSeg (total : Nat) :
    ∀ (n k : Nat), stagePcts "enriching" (eventsSeg total k n)
      = (eventsSeg total k n).map (fun e => e.2) := by
  intro n
  induction n with
  | zero => intro k; rfl
  | succ m ih =>
    intro k
    rw [eventsSeg]
    unfold stagePcts at *
    rw [List.filter_append, List.map_append, List.map_append, ih (k + 1)]
    congr 1
    split <;> rfl

/-- Filters for the other stages drop every loop event. -/
theorem stagePcts_eventsSeg_ne (s : String) (hs : ("enriching" == s) = false)
    (total : Nat) :
    ∀ (n k : Nat), stagePcts s (eventsSeg total k n) = [] := by
  intro n
  induction n with
  | zero => intro k; rfl
  | succ m ih =>
    intro k
    rw [eventsSeg]
    unfold stagePcts at *
    rw [List.filter_append, List.map_append, ih (k + 1), List.append_nil]
    split
    · simp [hs]
    · rfl

/-- A list of one repeated value is non-decreasing. -/
theorem pairwise_le_of_const (c : Nat) (l : List Nat) (h : ∀ v ∈ l, v = c) :
    l.Pairwise (· ≤ ·) := by
  induction l with
  | nil => exact List.Pairwise.nil
  | cons x xs ih =>
    refine List.Pairwise.cons ?_ (ih fun v hv => h v (List.mem_cons_of_mem _ hv))
    intro b hb
    rw [h x (List.mem_cons_self _ _), h b (List.mem_cons_of_mem _ hb)]

/-! ## C8 -/

/-- C8 counterexample: in a run where zero leads survive filtering, the
enriching stage's only — hence terminal — event carries percentage 0, not
100, before the finalizing stage begins, so the claimed protocol fails on
that edge case. -/
theorem zero_lead_enriching_never_reaches_100 :
    (run_gmaps_pipeline emptyRunEnv id).events
      = [("scraping", 0), ("scraping", 50), ("scraping", 100),
         ("enriching", 0), ("finalizing", 100)] ∧
    stageTerminal "enriching" (run_gmaps_pipeline emptyRunEnv id).events
      = some 0 ∧
    ¬ progressClaim (run_gmaps_pipeline emptyRunEnv id).events := by
  refine ⟨by decide, by decide, ?_⟩
  intro h
  have h2 := h.2.2.2.2.2.1
  revert h2
  decide

/-- C8 amended: in every completed run the stages appear in the fixed order
scraping, enriching, finalizing; within each stage the reported percentages
are non-decreasing; the scraping and finalizing stages terminate at 100; and
the enriching stage terminates at 100 whenever at least one lead survives
filtering — but when zero leads survive, its only event carries 0, so only
then does a stage end without a 100% event. -/
theorem progress_protocol (env : PipelineEnv)
    (reorder : List RawLead → List RawLead)
    (hperm : (reorder (survivingLeads env)).Perm (survivingLeads env))
    (htok : env.apify_token = true) :
    stagesInOrder (run_gmaps_pipeline env reorder).events ∧
    stageMonotone "scraping" (run_gmaps_pipeline env reorder).events ∧
    stageMonotone "enriching" (run_gmaps_pipeline env reorder).events ∧
    stageMonotone "finalizing" (run_gmaps_pipeline env reorder).events ∧
    stageTerminal "scraping" (run_gmaps_pipeline env reorder).events
      = some 100 ∧
    stageTerminal "finalizing" (run_gmaps_pipeline env reorder).events
      = some 100 ∧
    ((survivingLeads env).length ≠ 0 →
      stageTerminal "enriching" (run_gmaps_pipeline env reorder).events
        = some 100) ∧
    ((survivingLeads env).length = 0 →
      stagePcts "enriching" (run_gmaps_pipeline env reorder).events = [0]) := by
  have hn : (reorder (survivingLeads env)).length
      = (survivingLeads env).length := hperm.length_eq
  have hev : (run_gmaps_pipeline env reorder).events
      = scrapeEvents env ++ [("enriching", 0)]
        ++ eventsSeg (survivingLeads env).length 0
            (reorder (survivingLeads env)).length
        ++ [("finalizing", 100)] := by
    unfold run_gmaps_pipeline
    simp only [htok, Bool.not_true, Bool.false_eq_true, if_false]
    rw [(enrichLoop_spec (survivingLeads env).length
      (env.niche ++ " in " ++ env.location) env.extract
      (reorder (survivingLeads env))).2.2]
  have hScrE : stagePcts "enriching" (scrapeEvents env) = [] := by
    cases hexp : expands env <;> simp [scrapeEvents, hexp, stagePcts]
  have hScrS : stagePcts "scraping" (scrapeEvents env) = [0, 50, 100] ∨
      stagePcts "scraping" (scrapeEvents env) = [0, 50, 60, 90, 100] := by
    cases hexp : expands env
    · exact Or.inl (by simp [scrapeEvents, hexp, stagePcts])
    · exact Or.inr (by simp [scrapeEvents, hexp, stagePcts])
  have hScrF : stagePcts "finalizing" (scrapeEvents env) = [] := by
    cases hexp : expands env <;> simp [scrapeEvents, hexp, stagePcts]
  have hpS : stagePcts "scraping" (run_gmaps_pipeline env reorder).events
      = stagePcts "scraping" (scrapeEvents env) := by
    rw [hev, stagePcts_append, stagePcts_append, stagePcts_append,
      stagePcts_eventsSeg_ne "scraping" (by decide)]
    simp [stagePcts]
  have hpE : stagePcts "enriching" (run_gmaps_pipeline env reorder).events
      = 0 :: (eventsSeg (survivingLeads env).length 0
          (reorder (survivingLeads env)).length).map (fun e => e.2) := by
    rw [hev, stagePcts_append, stagePcts_append, stagePcts_append,
      stagePcts_eventsSeg, hScrE]
    simp [stagePcts]
  have hpF : stagePcts "finalizing" (run_gmaps_pipeline env reorder).events
      = [100] := by
    rw [hev, stagePcts_append, stagePcts_append, stagePcts_append,
      stagePcts_eventsSeg_ne "finalizing" (by decide), hScrF]
    simp [stagePcts]
  have hA : ∀ v ∈ (scrapeEvents env).map (fun e => stageIdx e.1), v = 0 := by
    intro v hv
    cases hexp : expands env <;>
      simp [scrapeEvents, hexp, stageIdx] at hv <;> omega
  have hC : ∀ v ∈ (eventsSeg (survivingLeads env).length 0
      (reorder (survivingLeads env)).length).map (fun e => stageIdx e.1),
      v = 1 := by
    intro v hv
    rw [List.mem_map] at hv
    obtain ⟨x, hx, rfl⟩ := hv
    rw [eventsSeg_stage _ _ _ x hx]
    rfl
  refine ⟨?_, ?_, ?_, ?_, ?_, ?_, ?_, ?_⟩
  · unfold stagesInOrder
    rw [hev]
    simp only [List.map_append]
    have p1 : (((scrapeEvents env).map (fun e => stageIdx e.1))
        ++ [("enriching", 0)].map (fun e => stageIdx e.1)).Pairwise (· ≤ ·) := by
      apply List.pairwise_append.mpr
      refine ⟨pairwise_le_of_const 0 _ hA, ?_, ?_⟩
      · exact List.pairwise_singleton _ _
      · intro a ha b hb
        rw [hA a ha]
        exact Nat.zero_le b
    have hAB : ∀ v ∈ (((scrapeEvents env).map (fun e => stageIdx e.1))
        ++ [("enriching", 0)].map (fun e => stageIdx e.1)), v ≤ 1 := by
      intro v hv
      rw [List.mem_append] at hv
      rcases hv with hv | hv
      · rw [hA v hv]; omega
      · simp [stageIdx] at hv; omega
    have p2 : ((((scrapeEvents env).map (fun e => stageIdx e.1))
        ++ [("enriching", 0)].map (fun e => stageIdx e.1))
        ++ (eventsSeg (survivingLeads env).length 0
            (reorder (survivingLeads env)).length).map
              (fun e => stageIdx e.1)).Pairwise (· ≤ ·) := by
      apply List.pairwise_append.mpr
      refine ⟨p1, pairwise_le_of_const 1 _ hC, ?_⟩
      intro a ha b hb
      rw [hC b hb]
      exact hAB a ha
    apply List.pairwise_append.mpr
    refine ⟨p2, List.pairwise_singleton _ _, ?_⟩
    intro a ha b hb
    simp [stageIdx] at hb
    rw [List.mem_append] at ha
    rcases ha with ha | ha
    · have := hAB a ha; omega
    · rw [hC a ha]; omega
  · unfold stageMonotone
    rw [hpS]
    rcases hScrS with h | h <;> rw [h] <;> decide
  · unfold stageMonotone
    rw [hpE]
    exact List.pairwise_cons.mpr
      ⟨fun b _ => Nat.zero_le b, eventsSeg_pairwise _ _ _⟩
  · unfold stageMonotone
    rw [hpF]
    decide
  · unfold stageTerminal
    rw [hpS]
    rcases hScrS with h | h <;> rw [h] <;> decide
  · unfold stageTerminal
    rw [hpF]
    decide
  · intro h0
    unfold stageTerminal
    rw [hpE]
    have hlast := eventsSeg_last_pct (survivingLeads env).length
      (reorder (survivingLeads env)).length 0 (by omega) (by omega)
    have hne : (eventsSeg (survivingLeads env).length 0
        (reorder (survivingLeads env)).length).map (fun e => e.2) ≠ [] := by
      intro hh
      rw [hh] at hlast
      simp at hlast
    exact (List.getLast?_append_of_ne_nil [0] hne).trans hlast
  · intro h0
    rw [hpE]
    have hz : (reorder (survivingLeads env)).length = 0 := by omega
    rw [hz]
    rfl

/-- C8 amended, witnessed at the zero-lead completed run. -/
theorem progress_protocol_witness :
    stagesInOrder (run_gmaps_pipeline emptyRunEnv id).events ∧
    stageMonotone "scraping" (run_gmaps_pipeline emptyRunEnv id).events ∧
    stageMonotone "enriching" (run_gmaps_pipeline emptyRunEnv id).events ∧
    stageMonotone "finalizing" (run_gmaps_pipeline emptyRunEnv id).events ∧
    stageTerminal "scraping" (run_gmaps_pipeline emptyRunEnv id).events
      = some 100 ∧
    stageTerminal "finalizing" (run_gmaps_pipeline emptyRunEnv id).events
      = some 100 ∧
    ((survivingLeads emptyRunEnv).length ≠ 0 →
      stageTerminal "enriching" (run_gmaps_pipeline emptyRunEnv id).events
        = some 100) ∧
    ((survivingLeads emptyRunEnv).length = 0 →
      stagePcts "enriching" (run_gmaps_pipeline emptyRunEnv id).events
        = [0]) :=
  progress_protocol emptyRunEnv id (List.Perm.refl _) rfl

end GmapsPipeline
